import Mathlib

/-!
Verification of the post lifecycle and scheduling core of the
`linkedin-post-manager` repository.

The embedded code lives in:
  * `src/streamlit_app/utils/supabase_client.py`
    (`get_all_posts`, `update_status`, `delete_post`, `schedule_post`);
  * `src/streamlit_app/config.py` (`TIME_WINDOWS`, retention constants);
  * `src/streamlit_app/components/post_card.py` (the approve / reject
    button handlers).

Modelling conventions:
  * Naive local timestamps are modelled as natural numbers of seconds;
    a day is `86400` seconds.  `datetime.now()` carries microseconds, but
    every behaviour verified here is at second granularity or coarser,
    so the sub-second part is abstracted away.
  * A post record keeps only the fields the embedded operations read or
    write (`id`, `status`, `scheduled_time`); `title`, `content`,
    `updated_at` and the other columns are never consulted by this code,
    so they are elided.
  * The stored `scheduled_time` column is `Option (Option Nat)`:
    `none` is an absent / empty (falsy) value, `some none` is a present
    string that `datetime.fromisoformat` rejects, and `some (some t)` is
    a string parsing to the naive local time `t`.  ISO-8601 parsing
    itself is Python library code, abstracted to this three-way split.
  * The Supabase query in `get_all_posts` either returns rows or raises;
    this outcome is the explicit `Except String (List PostRec)` argument.
    The final update write is modelled as succeeding (its failure mode is
    an ambiguous network error outside every claim considered here).
  * Python's `random.randint(lo, hi)` is modelled by `randint lo hi x`
    where `x` is drawn from an injected stream `σ : Nat → Nat` of raw
    random values; the k-th window visited consumes `σ (2*k)` for the
    hour and `σ (2*k+1)` for the minute, exactly one pair per visit.
-/

/-- A stored post, restricted to the fields the scheduling and status
code reads or writes.  `schedTime` models the `scheduled_time` column,
see the conventions above. -/
structure PostRec where
  id : String
  status : String
  schedTime : Option (Option Nat)
  deriving Repr, DecidableEq

/-- Result dictionary of `update_status` / `delete_post`:
`{"success": ..., "data": response.data}`. -/
structure OpResult where
  success : Bool
  data : List PostRec
  deriving Repr, DecidableEq

/-- Result dictionary of `schedule_post`: `success`, optional `error`
string and optional `scheduled_time`. -/
structure SchedResult where
  success : Bool
  error : Option String
  scheduled_time : Option Nat
  deriving Repr, DecidableEq

/-- The 30-minute minimum spacing, in seconds: the literal `1800`
(`# 30 minutes`) in `schedule_post`. -/
def MIN_SPACING : Nat := 1800

/-- The configured daily windows `(start_hour, end_hour)`: the list in
`schedule_post`, identical to `config.TIME_WINDOWS`. -/
def windows : List (Nat × Nat) := [(8, 10), (12, 14), (17, 19)]

/-- Midnight of the day containing `x`: what
`dt.replace(hour=h, minute=m, second=0, microsecond=0)` keeps of `dt`
before the hour/minute offsets are added. -/
def midnight (x : Nat) : Nat := x / 86400 * 86400

/-- Absolute difference of two timestamps, in seconds:
`abs((candidate_time - existing_time).total_seconds())`. -/
def tdist (a b : Nat) : Nat := max a b - min a b

/-- Python `random.randint(lo, hi)` (inclusive both ends), driven by one
raw draw `x` from the injected stream. -/
def randint (lo hi : Nat) (x : Nat) : Nat := lo + x % (hi + 1 - lo)

/-- The conflict test of `schedule_post`: some existing time is within
`MIN_SPACING` of the candidate. -/
def conflicts (occ : List Nat) (cand : Nat) : Bool :=
  occ.any (fun t => decide (tdist cand t < MIN_SPACING))

/-- The conflict-collection loop of `schedule_post`: keep each post's
`Scheduled Time` when it is present (truthy) and parses; a parse failure
is silently skipped (`except: pass`). -/
def collectScheduledTimes (posts : List PostRec) : List Nat :=
  posts.filterMap (fun p => p.schedTime.bind id)

/-- `get_all_posts(status_filter)`: on a successful query return the rows
(optionally filtered by status); on an exception print and return `[]`. -/
def get_all_posts (resp : Except String (List PostRec)) (filt : Option String) :
    List PostRec :=
  match resp with
  | .error _ => []
  | .ok posts =>
    match filt with
    | none => posts
    | some s => posts.filter (fun p => decide (p.status = s))

/-- The store-side `update(...).eq("id", rid)` call: apply `f` to every
row whose id matches. -/
def updateById (db : List PostRec) (rid : String) (f : PostRec → PostRec) :
    List PostRec :=
  db.map (fun p => if p.id = rid then f p else p)

/-- The candidate built on the k-th window visit `v = (day, s, e)`:
`check_date.replace(hour=randint(s, e-1), minute=randint(0, 59),
second=0, microsecond=0)` where `check_date = now + timedelta(days=day)`. -/
def candAt (now : Nat) (σ : Nat → Nat) (k : Nat) (v : Nat × Nat × Nat) : Nat :=
  midnight now + v.1 * 86400
    + randint v.2.1 (v.2.2 - 1) (σ (2 * k)) * 3600
    + randint 0 59 (σ (2 * k + 1)) * 60

/-- The nested search loop of `schedule_post`, flattened over the list of
`(day, start_hour, end_hour)` visits it performs in order; `k` counts the
visits already made (each visit consumes one hour draw and one minute
draw).  A candidate not strictly after `now`, or within `MIN_SPACING` of
an existing time, is skipped; the first surviving candidate is returned
and iteration stops. -/
def searchSlots (now : Nat) (occ : List Nat) (σ : Nat → Nat) :
    List (Nat × Nat × Nat) → Nat → Option Nat
  | [], _ => none
  | v :: rest, k =>
    if candAt now σ k v ≤ now then searchSlots now occ σ rest (k + 1)
    else if conflicts occ (candAt now σ k v) then searchSlots now occ σ rest (k + 1)
    else some (candAt now σ k v)

/-- The visit order of `schedule_post`: `for days_ahead in range(30)`,
and within each day the windows in their configured order. -/
def visits : List (Nat × Nat × Nat) :=
  (List.range 30).flatMap (fun d => windows.map (fun w => (d, w.1, w.2)))

/-- The slot search of `schedule_post`: run the visit list from the
first draw. -/
def findSlot (now : Nat) (occ : List Nat) (σ : Nat → Nat) : Option Nat :=
  searchSlots now occ σ visits 0

/-- The `schedule_post(record_id)` method.  `resp` is the outcome of the
store query behind its `get_all_posts()` call; `db` is the state the
final update writes to; `now` is `datetime.now()`; `σ` the random
stream.  Returns the result dictionary and the resulting store state. -/
def schedule_post (resp : Except String (List PostRec)) (db : List PostRec)
    (rid : String) (now : Nat) (σ : Nat → Nat) :
    SchedResult × List PostRec :=
  let occ := collectScheduledTimes (get_all_posts resp none)
  match findSlot now occ σ with
  | none =>
    (⟨false, some "No available time slots in next 30 days", none⟩, db)
  | some t =>
    (⟨true, none, some t⟩,
      updateById db rid (fun p => { p with status := "Approved", schedTime := some (some t) }))

/-- The `update_status(record_id, new_status)` method: unconditionally
set `status` on every matching row and report success with the updated
rows. -/
def update_status (db : List PostRec) (rid : String) (new_status : String) :
    OpResult × List PostRec :=
  let db' := updateById db rid (fun p => { p with status := new_status })
  (⟨true, db'.filter (fun p => decide (p.id = rid))⟩, db')

/-- The `delete_post(record_id)` method: remove every matching row and
report success with the deleted rows. -/
def delete_post (db : List PostRec) (rid : String) : OpResult × List PostRec :=
  (⟨true, db.filter (fun p => decide (p.id = rid))⟩,
    db.filter (fun p => decide (¬ p.id = rid)))

/-- The approve button handler in `post_card.py`: it calls
`update_status(record_id, "Approved")` and nothing else (in particular
it never calls `schedule_post`). -/
def approveAction (db : List PostRec) (rid : String) : OpResult × List PostRec :=
  update_status db rid "Approved"

/-- The reject button handler in `post_card.py`: it calls
`delete_post(record_id)`. -/
def rejectAction (db : List PostRec) (rid : String) : OpResult × List PostRec :=
  delete_post db rid

/-- Acceptance predicate on a candidate: strictly after `now` and not in
conflict with any occupied time. -/
def accepted (now : Nat) (occ : List Nat) (c : Nat) : Bool :=
  decide (now < c) && ! conflicts occ c

/-- The candidate drawn at each visit of a visit list, starting from
draw index `k` (specification-side view of the search). -/
def candList (now : Nat) (σ : Nat → Nat) :
    List (Nat × Nat × Nat) → Nat → List Nat
  | [], _ => []
  | v :: rest, k => candAt now σ k v :: candList now σ rest (k + 1)

/-- All ninety candidates a full search draws, in visit order. -/
def candidates (now : Nat) (σ : Nat → Nat) : List Nat :=
  candList now σ visits 0

/-- The spec's occupied-timestamp set, written from its words: the
`scheduled_time` values of posts whose status is `Approved` with a
non-null `scheduled_time` (for comparison with what the code collects). -/
def occupiedTimesSpec (posts : List PostRec) : List Nat :=
  posts.filterMap (fun p => if p.status = "Approved" then p.schedTime.bind id else none)

/-- Pairwise spacing invariant on a store state: distinct occupied
timestamps are at least `MIN_SPACING` apart. -/
def Spaced (db : List PostRec) : Prop :=
  ∀ a ∈ collectScheduledTimes db, ∀ b ∈ collectScheduledTimes db,
    a ≠ b → MIN_SPACING ≤ tdist a b

/-- Reachability by a sequence of single-threaded `schedule_post` calls:
each call's store read sees the current state. -/
inductive SchedSteps : List PostRec → List PostRec → Prop
  | refl (db : List PostRec) : SchedSteps db db
  | step (db db' : List PostRec) (rid : String) (now : Nat) (σ : Nat → Nat) :
      SchedSteps db db' →
      SchedSteps db (schedule_post (Except.ok db') db' rid now σ).2

/-- A `randint` draw lands inclusively between its bounds. -/
theorem randint_mem (lo hi x : Nat) (h : lo ≤ hi) :
    lo ≤ randint lo hi x ∧ randint lo hi x ≤ hi := by
  unfold randint
  have h1 : x % (hi + 1 - lo) < hi + 1 - lo := Nat.mod_lt _ (by omega)
  omega

theorem tdist_comm (a b : Nat) : tdist a b = tdist b a := by
  unfold tdist; omega

/-- Every configured window has a nonempty hour range ending by 18. -/
theorem windows_bounds : ∀ w ∈ windows, w.1 ≤ w.2 - 1 ∧ w.2 - 1 ≤ 18 := by decide

/-- Every visit of the search carries a configured window and a day
offset below 30. -/
theorem visits_windows : ∀ v ∈ visits, (v.2.1, v.2.2) ∈ windows ∧ v.1 < 30 := by
  decide

theorem conflicts_eq_false {occ : List Nat} {cand : Nat}
    (h : conflicts occ cand = false) :
    ∀ s ∈ occ, MIN_SPACING ≤ tdist cand s := by
  intro s hs
  by_contra hlt
  have : conflicts occ cand = true := by
    simp only [conflicts, List.any_eq_true]
    exact ⟨s, hs, by simpa using Nat.lt_of_not_le hlt⟩
  simp [this] at h

/-- Properties of any slot the search loop returns: it is strictly in
the future, at least `MIN_SPACING` from every occupied time, it lies in
a configured window, and its seconds are zero. -/
theorem searchSlots_some_props (now : Nat) (occ : List Nat) (σ : Nat → Nat)
    (l : List (Nat × Nat × Nat)) :
    ∀ (k t : Nat), (∀ v ∈ l, (v.2.1, v.2.2) ∈ windows) →
      searchSlots now occ σ l k = some t →
      now < t ∧ (∀ s ∈ occ, MIN_SPACING ≤ tdist t s) ∧
        (∃ w ∈ windows, w.1 ≤ t % 86400 / 3600 ∧ t % 86400 / 3600 ≤ w.2 - 1) ∧
        t % 3600 / 60 ≤ 59 ∧ t % 60 = 0 := by
  induction l with
  | nil => intro k t _ h; simp [searchSlots] at h
  | cons v rest ih =>
    intro k t hw h
    rw [searchSlots] at h
    by_cases h1 : candAt now σ k v ≤ now
    · rw [if_pos h1] at h
      exact ih (k + 1) t (fun u hu => hw u (List.mem_cons_of_mem _ hu)) h
    · rw [if_neg h1] at h
      by_cases h2 : conflicts occ (candAt now σ k v) = true
      · rw [if_pos h2] at h
        exact ih (k + 1) t (fun u hu => hw u (List.mem_cons_of_mem _ hu)) h
      · rw [if_neg h2] at h
        obtain rfl : candAt now σ k v = t := Option.some.inj h
        have hwv : (v.2.1, v.2.2) ∈ windows := hw v (List.mem_cons_self v rest)
        have hb := windows_bounds _ hwv
        have hr1 := randint_mem v.2.1 (v.2.2 - 1) (σ (2 * k)) hb.1
        have hr2 := randint_mem 0 59 (σ (2 * k + 1)) (by omega)
        refine ⟨Nat.lt_of_not_le h1,
          conflicts_eq_false (Bool.not_eq_true _ ▸ h2 : _),
          ⟨(v.2.1, v.2.2), hwv, ?_, ?_⟩, ?_, ?_⟩ <;>
          (simp only [candAt, midnight]; omega)

/-- The search loop returns exactly the first accepted candidate of the
draws it makes, one per visit, in visit order. -/
theorem searchSlots_eq_find (now : Nat) (occ : List Nat) (σ : Nat → Nat)
    (l : List (Nat × Nat × Nat)) :
    ∀ k, searchSlots now occ σ l k =
      (candList now σ l k).find? (accepted now occ) := by
  induction l with
  | nil => intro k; simp [searchSlots, candList]
  | cons v rest ih =>
    intro k
    rw [searchSlots, candList]
    by_cases h1 : candAt now σ k v ≤ now
    · rw [if_pos h1, List.find?_cons_of_neg _ (by simp [accepted]; omega), ih]
    · rw [if_neg h1]
      by_cases h2 : conflicts occ (candAt now σ k v) = true
      · rw [if_pos h2, List.find?_cons_of_neg _ (by simp [accepted, h2]), ih]
      · rw [if_neg h2, List.find?_cons_of_pos _ (by
          simp [accepted, h2, Nat.lt_of_not_le h1])]

/-- The k-offset candidate list, written as a map over positions. -/
theorem candList_eq_range (now : Nat) (σ : Nat → Nat)
    (l : List (Nat × Nat × Nat)) :
    ∀ k, candList now σ l k =
      (List.range l.length).map
        (fun i => candAt now σ (k + i) (l.getD i (0, 0, 0))) := by
  induction l with
  | nil => intro k; simp [candList]
  | cons v rest ih =>
    intro k
    rw [candList, ih (k + 1), List.length_cons, List.range_succ_eq_map,
      List.map_cons, List.map_map]
    refine congrArg₂ _ (by simp [candAt]) ?_
    apply List.map_congr_left
    intro i _
    have h3 : k + (i + 1) = k + 1 + i := by omega
    simp only [Function.comp, List.getD_cons_succ, Nat.succ_eq_add_one, h3]

/-- Elimination of a successful `schedule_post` call: the assigned time
is exactly the slot the search found, and the resulting state is the
single update at the target id. -/
theorem schedule_post_success {resp : Except String (List PostRec)}
    {db : List PostRec} {rid : String} {now : Nat} {σ : Nat → Nat} {t : Nat}
    (h : (schedule_post resp db rid now σ).1.scheduled_time = some t) :
    findSlot now (collectScheduledTimes (get_all_posts resp none)) σ = some t ∧
      (schedule_post resp db rid now σ).1 = ⟨true, none, some t⟩ ∧
      (schedule_post resp db rid now σ).2 = updateById db rid
        (fun p => { p with status := "Approved", schedTime := some (some t) }) := by
  cases hf : findSlot now (collectScheduledTimes (get_all_posts resp none)) σ with
  | none =>
    rw [show schedule_post resp db rid now σ =
        (⟨false, some "No available time slots in next 30 days", none⟩, db) from
      by simp [schedule_post, hf]] at h
    simp at h
  | some u =>
    have he : schedule_post resp db rid now σ =
        (⟨true, none, some u⟩, updateById db rid
          (fun p => { p with status := "Approved", schedTime := some (some u) })) := by
      simp [schedule_post, hf]
    rw [he] at h
    obtain rfl : u = t := by simpa using h
    rw [he]
    exact ⟨rfl, rfl, rfl⟩

/-- Every occupied time after the scheduling update is the new slot or
an occupied time of the previous state. -/
theorem mem_collect_updateById {db : List PostRec} {rid : String} {t x : Nat}
    (hx : x ∈ collectScheduledTimes (updateById db rid
      (fun p => { p with status := "Approved", schedTime := some (some t) }))) :
    x = t ∨ x ∈ collectScheduledTimes db := by
  simp only [collectScheduledTimes, updateById, List.mem_filterMap,
    List.mem_map] at hx ⊢
  obtain ⟨p, ⟨q, hq, hpq⟩, hbind⟩ := hx
  by_cases h : q.id = rid
  · rw [if_pos h] at hpq
    subst hpq
    simp only [Option.bind] at hbind
    left
    exact (Option.some.inj (by simpa using hbind)).symm
  · rw [if_neg h] at hpq
    subst hpq
    right
    exact ⟨q, hq, hbind⟩

/-- One successful or failed `schedule_post` call on a store whose
occupied times are pairwise spaced leaves them pairwise spaced. -/
theorem step_preserves_spaced (db : List PostRec) (rid : String) (now : Nat)
    (σ : Nat → Nat) (hdb : Spaced db) :
    Spaced (schedule_post (.ok db) db rid now σ).2 := by
  cases hf : findSlot now (collectScheduledTimes db) σ with
  | none =>
    have h2 : (schedule_post (.ok db) db rid now σ).2 = db := by
      simp [schedule_post, get_all_posts, hf]
    rw [h2]; exact hdb
  | some t =>
    have h2 : (schedule_post (.ok db) db rid now σ).2 = updateById db rid
        (fun p => { p with status := "Approved", schedTime := some (some t) }) := by
      simp [schedule_post, get_all_posts, hf]
    rw [h2]
    have hsp : ∀ s ∈ collectScheduledTimes db, MIN_SPACING ≤ tdist t s :=
      (searchSlots_some_props now (collectScheduledTimes db) σ visits 0 t
        (fun v hv => (visits_windows v hv).1) hf).2.1
    intro a ha b hb hab
    rcases mem_collect_updateById ha with rfl | ha'
    · rcases mem_collect_updateById hb with rfl | hb'
      · exact absurd rfl hab
      · exact hsp b hb'
    · rcases mem_collect_updateById hb with rfl | hb'
      · rw [tdist_comm]; exact hsp a ha'
      · exact hdb a ha' b hb' hab

/-- C1.  Spacing invariant: a committed slot is at least `MIN_SPACING`
from every occupied timestamp the call collected, and any sequence of
single-threaded `schedule_post` calls started from a pairwise-spaced
store keeps all distinct occupied timestamps at least `MIN_SPACING`
apart. -/
theorem spacing_invariant :
    (∀ (resp : Except String (List PostRec)) (db : List PostRec)
        (rid : String) (now : Nat) (σ : Nat → Nat) (t : Nat),
        (schedule_post resp db rid now σ).1.scheduled_time = some t →
        ∀ s ∈ collectScheduledTimes (get_all_posts resp none),
          MIN_SPACING ≤ tdist t s) ∧
    (∀ db db' : List PostRec, Spaced db → SchedSteps db db' → Spaced db') := by
  constructor
  · intro resp db rid now σ t h s hs
    have hf := (schedule_post_success h).1
    exact (searchSlots_some_props now _ σ visits 0 t
      (fun v hv => (visits_windows v hv).1) hf).2.1 s hs
  · intro db db' hdb hsteps
    induction hsteps with
    | refl => exact hdb
    | step db1 rid now σ _ ih => exact step_preserves_spaced db1 rid now σ ih

/-- Witness for C1 at a concrete call on the empty store. -/
theorem spacing_invariant_witness :
    (∀ s ∈ collectScheduledTimes (get_all_posts (.ok ([] : List PostRec)) none),
      MIN_SPACING ≤ tdist 28800 s) ∧
    Spaced (schedule_post (.ok ([] : List PostRec)) [] "p1" 0 (fun _ => 0)).2 :=
  ⟨spacing_invariant.1 (.ok []) [] "p1" 0 (fun _ => 0) 28800 (by decide),
   spacing_invariant.2 [] _
     (by intro a ha; simp [collectScheduledTimes] at ha)
     (SchedSteps.step [] [] "p1" 0 (fun _ => 0) (SchedSteps.refl []))⟩

/-- C2.  Exact search policy: the slot search returns the first accepted
candidate of the ninety draws it makes, iteration stopping there; the
visit order is day offsets 0..29 (day-major), each day running the
configured windows in listed order; and each visit draws exactly one
candidate with hour `randint(startHour, endHour-1)` and minute
`randint(0, 59)` on the date `today + day`, seconds zeroed. -/
theorem search_policy_exact :
    (∀ (now : Nat) (occ : List Nat) (σ : Nat → Nat),
      findSlot now occ σ = (candidates now σ).find? (accepted now occ)) ∧
    visits = (List.range 90).map (fun k => (k / 3, windows.getD (k % 3) (0, 0))) ∧
    (∀ (now : Nat) (σ : Nat → Nat),
      candidates now σ = (List.range 90).map
        (fun k => candAt now σ k (visits.getD k (0, 0, 0)))) := by
  refine ⟨fun now occ σ => searchSlots_eq_find now occ σ visits 0, by decide, ?_⟩
  intro now σ
  rw [candidates, candList_eq_range now σ visits 0,
    show visits.length = 90 from by decide]
  simp

/-- C3.  Window containment: every successfully assigned timestamp has
its hour inside a configured window, its minute in `[0, 59]` and its
seconds zero. -/
theorem window_containment :
    ∀ (resp : Except String (List PostRec)) (db : List PostRec)
      (rid : String) (now : Nat) (σ : Nat → Nat) (t : Nat),
      (schedule_post resp db rid now σ).1.scheduled_time = some t →
      (∃ w ∈ windows, w.1 ≤ t % 86400 / 3600 ∧ t % 86400 / 3600 ≤ w.2 - 1) ∧
        t % 3600 / 60 ≤ 59 ∧ t % 60 = 0 := by
  intro resp db rid now σ t h
  have hp := searchSlots_some_props now _ σ visits 0 t
    (fun v hv => (visits_windows v hv).1) (schedule_post_success h).1
  exact ⟨hp.2.2.1, hp.2.2.2.1, hp.2.2.2.2⟩

/-- Witness for C3 at a concrete successful call. -/
theorem window_containment_witness :
    (∃ w ∈ windows, w.1 ≤ 28800 % 86400 / 3600 ∧ 28800 % 86400 / 3600 ≤ w.2 - 1) ∧
      28800 % 3600 / 60 ≤ 59 ∧ 28800 % 60 = 0 :=
  window_containment (.ok []) [] "p1" 0 (fun _ => 0) 28800 (by decide)

/-- C4.  Future-only: every assigned timestamp is strictly greater than
the `now` of the call, and any candidate at or before `now` is rejected
by the acceptance test. -/
theorem future_only :
    (∀ (resp : Except String (List PostRec)) (db : List PostRec)
        (rid : String) (now : Nat) (σ : Nat → Nat) (t : Nat),
        (schedule_post resp db rid now σ).1.scheduled_time = some t → now < t) ∧
    (∀ (now : Nat) (occ : List Nat) (c : Nat), c ≤ now →
      accepted now occ c = false) := by
  constructor
  · intro resp db rid now σ t h
    exact (searchSlots_some_props now _ σ visits 0 t
      (fun v hv => (visits_windows v hv).1) (schedule_post_success h).1).1
  · intro now occ c hc
    have hd : decide (now < c) = false := by simp; omega
    simp [accepted, hd]

/-- Witness for C4 at a concrete successful call and a concrete
rejected candidate. -/
theorem future_only_witness : 0 < 28800 ∧ accepted 5 [] 3 = false :=
  ⟨future_only.1 (.ok []) [] "p1" 0 (fun _ => 0) 28800 (by decide),
   future_only.2 5 [] 3 (by decide)⟩

/-- C5.  Exhaustion with atomicity: when the search accepts no candidate
over the whole 30-day horizon, `schedule_post` returns the
no-available-slot error and the store state is exactly the input state
(no write; the post's status and scheduled time are unchanged). -/
theorem exhaustion_atomic :
    ∀ (resp : Except String (List PostRec)) (db : List PostRec)
      (rid : String) (now : Nat) (σ : Nat → Nat),
      findSlot now (collectScheduledTimes (get_all_posts resp none)) σ = none →
      schedule_post resp db rid now σ =
        (⟨false, some "No available time slots in next 30 days", none⟩, db) := by
  intro resp db rid now σ hf
  simp [schedule_post, hf]

/-- A store occupying, for the all-zero random stream started at time 0,
every candidate the search will draw: three posts per day at the window
start hours, for all thirty days. -/
def fullDb : List PostRec :=
  (List.range 30).flatMap (fun d =>
    [8, 12, 17].map (fun h => ⟨"q", "Approved", some (some (d * 86400 + h * 3600))⟩))

/-- Witness for C5: on `fullDb` the zero-stream search exhausts all
ninety visits and the call fails without touching the store. -/
theorem exhaustion_atomic_witness :
    schedule_post (.ok fullDb) fullDb "p1" 0 (fun _ => 0) =
      (⟨false, some "No available time slots in next 30 days", none⟩, fullDb) :=
  exhaustion_atomic (.ok fullDb) fullDb "p1" 0 (fun _ => 0) (by decide)

/-- C6 counterexample: on a store holding one Rejected post, the approve
path (`update_status` to `Approved`) reports success and overwrites the
status, and the reject path (`delete_post`) reports success and removes
the row — neither fails with an invalid-transition error nor leaves the
state unchanged, contradicting the claimed transition closure. -/
theorem transition_guard_counterexample :
    (update_status [⟨"p1", "Rejected", none⟩] "p1" "Approved").1.success = true ∧
    (update_status [⟨"p1", "Rejected", none⟩] "p1" "Approved").2 =
      [⟨"p1", "Approved", none⟩] ∧
    (delete_post [⟨"p1", "Rejected", none⟩] "p1").1.success = true ∧
    (delete_post [⟨"p1", "Rejected", none⟩] "p1").2 = [] := by decide

/-- C6 amended: the code has no transition guard at all.  `update_status`
applies any requested status to the matching rows unconditionally and
reports success from every current status (Rejected included), the
approve button is exactly `update_status(_, "Approved")` with no
scheduler invocation, and the reject button is exactly `delete_post`. -/
theorem transitions_unguarded :
    ∀ (db : List PostRec) (rid : String) (st : String),
      (update_status db rid st).1.success = true ∧
      (update_status db rid st).2 =
        updateById db rid (fun p => { p with status := st }) ∧
      approveAction db rid = update_status db rid "Approved" ∧
      rejectAction db rid = delete_post db rid := by
  intro db rid st
  exact ⟨rfl, rfl, rfl, rfl⟩

/-- C7 counterexample: a Pending Review post with a stored scheduled
time contributes a conflict timestamp — the collected set is `[28800]`
although no post is Approved (the spec-side occupied set is empty), and
a subsequent `schedule_post` is deflected from the 08:00 draw to 12:00
by that Pending Review post. -/
theorem occupancy_counterexample :
    collectScheduledTimes (get_all_posts
        (.ok [⟨"p1", "Pending Review", some (some 28800)⟩]) none) = [28800] ∧
    occupiedTimesSpec [⟨"p1", "Pending Review", some (some 28800)⟩] = [] ∧
    (schedule_post (.ok [⟨"p1", "Pending Review", some (some 28800)⟩])
        [⟨"p1", "Pending Review", some (some 28800)⟩] "p2" 0
        (fun _ => 0)).1.scheduled_time = some 43200 := by decide

/-- C7 amended: the conflict set of `schedule_post` consists of the
parseable scheduled times of ALL posts returned by the unfiltered
`get_all_posts()`, regardless of status: rewriting every status
arbitrarily changes neither the collected set nor the scheduling
outcome. -/
theorem occupancy_ignores_status :
    ∀ (f : PostRec → String) (posts db : List PostRec) (rid : String)
      (now : Nat) (σ : Nat → Nat),
      collectScheduledTimes (posts.map (fun p => { p with status := f p })) =
        collectScheduledTimes posts ∧
      (schedule_post (.ok (posts.map (fun p => { p with status := f p })))
          db rid now σ).1 = (schedule_post (.ok posts) db rid now σ).1 := by
  intro f posts db rid now σ
  have hc : collectScheduledTimes (posts.map (fun p => { p with status := f p })) =
      collectScheduledTimes posts := by
    rw [collectScheduledTimes, collectScheduledTimes, List.filterMap_map]
    rfl
  exact ⟨hc, by simp only [schedule_post, get_all_posts, hc]⟩

/-- C8: evaluation at the failing input.  Rejecting a Pending Review
post deletes it outright — the store afterwards holds no Rejected row
and no retention deadline is recorded anywhere (the model has no such
field because the code writes none; `AUDIT_RETENTION_DAYS = 7` exists in
`config.py` but is never used) — and the subsequent approve attempt on
the deleted id reports success over zero rows instead of failing with
an invalid-transition error. -/
theorem reject_deletes_immediately :
    rejectAction [⟨"p1", "Pending Review", none⟩] "p1" =
      (⟨true, [⟨"p1", "Pending Review", none⟩]⟩, []) ∧
    approveAction ([] : List PostRec) "p1" = (⟨true, []⟩, []) := by decide

/-- C9 counterexample: with the store read failing, `schedule_post` does
not report an error — it proceeds against an empty conflict set and
happily assigns `28800`, the exact time already occupied by an existing
Approved post. -/
theorem repo_error_counterexample :
    (schedule_post (.error "connection timeout")
        [⟨"p0", "Approved", some (some 28800)⟩] "p1" 0 (fun _ => 0)).1 =
      ⟨true, none, some 28800⟩ := by decide

/-- C9 amended: `get_all_posts` swallows every store error into an empty
list, so a `schedule_post` whose read fails behaves exactly like one run
against an empty store — the repository failure is converted into a
degraded success rather than propagated. -/
theorem repo_error_degrades :
    ∀ (e : String) (filt : Option String) (db : List PostRec) (rid : String)
      (now : Nat) (σ : Nat → Nat),
      get_all_posts (.error e) filt = [] ∧
      schedule_post (.error e) db rid now σ =
        schedule_post (.ok []) db rid now σ := by
  intro e filt db rid now σ
  exact ⟨rfl, rfl⟩

/-- C10.  A stored scheduled time that fails to parse is silently
skipped: it contributes nothing to the conflict set, and a call on a
store containing such a post behaves exactly (result and final state)
like the call without that post — in particular malformed data never
makes `schedule_post` fail. -/
theorem malformed_sched_time_skipped :
    ∀ (pid st : String) (rest db : List PostRec) (rid : String)
      (now : Nat) (σ : Nat → Nat),
      collectScheduledTimes (⟨pid, st, some none⟩ :: rest) =
        collectScheduledTimes rest ∧
      schedule_post (.ok (⟨pid, st, some none⟩ :: rest)) db rid now σ =
        schedule_post (.ok rest) db rid now σ := by
  intro pid st rest db rid now σ
  have hc : collectScheduledTimes (⟨pid, st, some none⟩ :: rest) =
      collectScheduledTimes rest := by
    simp [collectScheduledTimes]
  exact ⟨hc, by simp only [schedule_post, get_all_posts, hc]⟩
